import Mathlib

/-!
Shallow embedding of `src/blrec/bili/api.py`: the app-API signing scheme
(`AppApi.signed`), the WBI signing scheme (`getMixinKey`, `encWbi`), the
response check (`BaseApi._check_response`) and the multi-host fetch helpers
(`BaseApi._get_json`, `BaseApi._get_jsons_concurrently`).

Python dicts of request parameters are modelled as association lists in
insertion order with string keys and string values (the source converts
every value with `str` before encoding).  `hashlib.md5` and
`urllib.parse.urlencode`/`quote_plus` are embedded in full over `Nat`
byte values.  The asynchronous fetch helpers are modelled as pure
functions of the per-host outcomes, returning both the result and the
list of URLs actually requested.
-/

namespace Blrec

/-- A Python dict of request parameters: an association list in insertion
order.  Keys are unique in an actual dict; theorems that need uniqueness
assume `(keys d).Nodup`. -/
abbrev Params := List (String × String)

/-- The keys of a parameter dict, in order. -/
def keys (d : Params) : List String := d.map Prod.fst

/-- Python dict item assignment `d[k] = v` (also `{**d, k: v}` and
`d.update(k=v)`): replace the value in place when the key is present,
otherwise append the new pair at the end. -/
def dictUpdate (d : Params) (k v : String) : Params :=
  if d.any (fun kv => kv.1 == k) then
    d.map (fun kv => if kv.1 == k then (k, v) else kv)
  else
    d ++ [(k, v)]

/-- Lexicographic strict comparison of two character lists by code point:
the Python `<` on strings. -/
def keyLt : List Char → List Char → Bool
  | [], [] => false
  | [], _ :: _ => true
  | _ :: _, [] => false
  | a :: as, b :: bs =>
    if a.toNat < b.toNat then true
    else if b.toNat < a.toNat then false
    else keyLt as bs

/-- The Python `a <= b` on strings: not `b < a`. -/
def keyLe (a b : String) : Bool := !(keyLt b.data a.data)

/-- Python `dict(sorted(d.items()))`: items sorted by key (tuple comparison
starts with the key, and keys of a dict are unique, so the key decides;
string comparison is lexicographic by code point). -/
def sortByKey (d : Params) : Params :=
  List.insertionSort (fun a b : String × String => keyLe a.1 b.1 = true) d

/-! ### UTF-8 and percent-encoding (`str.encode`, `urllib.parse.quote_plus`) -/

/-- UTF-8 encoding of a single character, as byte values 0..255. -/
def utf8Bytes (c : Char) : List Nat :=
  let n := c.toNat
  if n < 0x80 then [n]
  else if n < 0x800 then
    [0xC0 + n / 64, 0x80 + n % 64]
  else if n < 0x10000 then
    [0xE0 + n / 4096, 0x80 + n / 64 % 64, 0x80 + n % 64]
  else
    [0xF0 + n / 262144, 0x80 + n / 4096 % 64, 0x80 + n / 64 % 64, 0x80 + n % 64]

/-- Model of `s.encode()`: the UTF-8 bytes of a string. -/
def strBytes (s : String) : List Nat :=
  s.data.foldr (fun c acc => utf8Bytes c ++ acc) []

/-- Lowercase hexadecimal digit for `n < 16` (as used by `hexdigest`). -/
def hexDigit (n : Nat) : Char :=
  if n < 10 then Char.ofNat (48 + n) else Char.ofNat (87 + n)

/-- Uppercase hexadecimal digit for `n < 16` (as used by `quote`). -/
def hexDigitUpper (n : Nat) : Char :=
  if n < 10 then Char.ofNat (48 + n) else Char.ofNat (55 + n)

/-- The bytes `urllib.parse.quote` never escapes: ASCII letters, digits
and `_ . - ~`. -/
def alwaysSafeByte (b : Nat) : Bool :=
  (0x41 ≤ b && b ≤ 0x5A) || (0x61 ≤ b && b ≤ 0x7A) || (0x30 ≤ b && b ≤ 0x39)
    || b == 0x5F || b == 0x2E || b == 0x2D || b == 0x7E

/-- Encoding of one UTF-8 byte under `urllib.parse.quote_plus` with an
empty `safe` set: a space becomes `+`, safe bytes stay themselves,
everything else becomes `%XX` with uppercase hex. -/
def quotePlusByte (b : Nat) : List Char :=
  if b == 0x20 then ['+']
  else if alwaysSafeByte b then [Char.ofNat b]
  else ['%', hexDigitUpper (b / 16), hexDigitUpper (b % 16)]

/-- Model of `urllib.parse.quote_plus(s)` with an empty `safe` set. -/
def quotePlus (s : String) : String :=
  ⟨(strBytes s).foldr (fun b acc => quotePlusByte b ++ acc) []⟩

/-- Model of `urllib.parse.urlencode(d)` over a dict of string values
(the default `quote_via` is `quote_plus`; with string values
`doseq=True` produces the same output). -/
def urlencode (d : Params) : String :=
  String.intercalate "&" (d.map (fun kv => quotePlus kv.1 ++ "=" ++ quotePlus kv.2))

/-! ### MD5 (`hashlib.md5(...).hexdigest()`), RFC 1321, over byte lists -/

/-- Truncation to a 32-bit word. -/
def w32 (n : Nat) : Nat := n % 4294967296

/-- Left rotation of a 32-bit word `x < 2^32` by `s` bits. -/
def rotl32 (x s : Nat) : Nat := w32 (x <<< s) ||| (x >>> (32 - s))

/-- The 64 MD5 round constants `K[i] = floor(2^32 * abs(sin(i+1)))`. -/
def md5K : List Nat :=
  [0xd76aa478, 0xe8c7b756, 0x242070db, 0xc1bdceee,
   0xf57c0faf, 0x4787c62a, 0xa8304613, 0xfd469501,
   0x698098d8, 0x8b44f7af, 0xffff5bb1, 0x895cd7be,
   0x6b901122, 0xfd987193, 0xa679438e, 0x49b40821,
   0xf61e2562, 0xc040b340, 0x265e5a51, 0xe9b6c7aa,
   0xd62f105d, 0x02441453, 0xd8a1e681, 0xe7d3fbc8,
   0x21e1cde6, 0xc33707d6, 0xf4d50d87, 0x455a14ed,
   0xa9e3e905, 0xfcefa3f8, 0x676f02d9, 0x8d2a4c8a,
   0xfffa3942, 0x8771f681, 0x6d9d6122, 0xfde5380c,
   0xa4beea44, 0x4bdecfa9, 0xf6bb4b60, 0xbebfbc70,
   0x289b7ec6, 0xeaa127fa, 0xd4ef3085, 0x04881d05,
   0xd9d4d039, 0xe6db99e5, 0x1fa27cf8, 0xc4ac5665,
   0xf4292244, 0x432aff97, 0xab9423a7, 0xfc93a039,
   0x655b59c3, 0x8f0ccc92, 0xffeff47d, 0x85845dd1,
   0x6fa87e4f, 0xfe2ce6e0, 0xa3014314, 0x4e0811a1,
   0xf7537e82, 0xbd3af235, 0x2ad7d2bb, 0xeb86d391]

/-- The 64 MD5 per-round left-rotation amounts. -/
def md5S : List Nat :=
  [7, 12, 17, 22, 7, 12, 17, 22, 7, 12, 17, 22, 7, 12, 17, 22,
   5, 9, 14, 20, 5, 9, 14, 20, 5, 9, 14, 20, 5, 9, 14, 20,
   4, 11, 16, 23, 4, 11, 16, 23, 4, 11, 16, 23, 4, 11, 16, 23,
   6, 10, 15, 21, 6, 10, 15, 21, 6, 10, 15, 21, 6, 10, 15, 21]

/-- The MD5 nonlinear function of round `i` applied to words `b c d`. -/
def md5F (i b c d : Nat) : Nat :=
  if i < 16 then (b &&& c) ||| ((0xFFFFFFFF ^^^ b) &&& d)
  else if i < 32 then (d &&& b) ||| ((0xFFFFFFFF ^^^ d) &&& c)
  else if i < 48 then b ^^^ c ^^^ d
  else c ^^^ (b ||| (0xFFFFFFFF ^^^ d))

/-- The message-word index used in MD5 round `i`. -/
def md5G (i : Nat) : Nat :=
  if i < 16 then i
  else if i < 32 then (5 * i + 1) % 16
  else if i < 48 then (3 * i + 5) % 16
  else (7 * i) % 16

/-- Little-endian byte expansion of `n` into `count` bytes. -/
def leBytes (n count : Nat) : List Nat :=
  (List.range count).map (fun i => n / 2 ^ (8 * i) % 256)

/-- MD5 padding: append `0x80`, zero bytes up to 56 mod 64, then the bit
length of the message as 8 little-endian bytes. -/
def md5Pad (msg : List Nat) : List Nat :=
  msg ++ [0x80] ++ List.replicate ((119 - msg.length % 64) % 64) 0
    ++ leBytes (8 * msg.length) 8

/-- The sixteen 32-bit little-endian message words of a 64-byte block. -/
def md5Words (block : List Nat) : List Nat :=
  (List.range 16).map (fun j =>
    block.getD (4 * j) 0 + 256 * block.getD (4 * j + 1) 0
      + 65536 * block.getD (4 * j + 2) 0 + 16777216 * block.getD (4 * j + 3) 0)

/-- One MD5 round: rotate the state `(a, b, c, d)` after mixing in round
constant, message word and nonlinear function. -/
def md5Step (m : List Nat) (st : Nat × Nat × Nat × Nat) (i : Nat) :
    Nat × Nat × Nat × Nat :=
  let (a, b, c, d) := st
  let f := w32 (md5F i b c d + a + md5K.getD i 0 + m.getD (md5G i) 0)
  (d, w32 (b + rotl32 f (md5S.getD i 0)), b, c)

/-- Process one 64-byte block: 64 rounds, then add the block result onto
the incoming state. -/
def md5Block (st : Nat × Nat × Nat × Nat) (block : List Nat) :
    Nat × Nat × Nat × Nat :=
  let m := md5Words block
  let (a, b, c, d) := (List.range 64).foldl (md5Step m) st
  (w32 (st.1 + a), w32 (st.2.1 + b), w32 (st.2.2.1 + c), w32 (st.2.2.2 + d))

/-- Split a byte list into 64-byte chunks. -/
def md5Chunks (bytes : List Nat) : List (List Nat) :=
  if h : bytes = [] then []
  else bytes.take 64 :: md5Chunks (bytes.drop 64)
termination_by bytes.length
decreasing_by
  cases bytes with
  | nil => exact absurd rfl h
  | cons x xs => simp [List.length_drop]; omega

/-- Two lowercase hex digits of a byte. -/
def byteHex (b : Nat) : List Char := [hexDigit (b / 16), hexDigit (b % 16)]

/-- MD5 hex digest of a byte list. -/
def md5hexBytes (bytes : List Nat) : String :=
  let st := (md5Chunks (md5Pad bytes)).foldl md5Block
    (0x67452301, 0xefcdab89, 0x98badcfe, 0x10325476)
  ⟨(leBytes st.1 4 ++ leBytes st.2.1 4 ++ leBytes st.2.2.1 4 ++ leBytes st.2.2.2 4).foldr
    (fun b acc => byteHex b ++ acc) []⟩

/-- Model of `hashlib.md5(s.encode()).hexdigest()`. -/
def md5hex (s : String) : String := md5hexBytes (strBytes s)

/-! ### `AppApi.signed` -/

namespace AppApi

/-- Constant `_appkey` of `AppApi`. -/
def appkey : String := "1d8b6e7d45233436"

/-- Constant `_appsec` of `AppApi`. -/
def appsec : String := "560c52ccd288fed045859ed18bffd973"

/-- Model of `AppApi.signed`: insert the fixed app key, sort items by key,
URL-encode, append the fixed secret, MD5-hash, and attach the digest as
the `sign` field. -/
def signed (params : Params) : Params :=
  let p := sortByKey (dictUpdate params "appkey" appkey)
  let query := urlencode p
  let sign := md5hex (query ++ appsec)
  dictUpdate p "sign" sign

end AppApi

/-! ### WBI signing (`mixinKeyEncTab`, `getMixinKey`, `encWbi`) -/

/-- The static permutation table `mixinKeyEncTab`. -/
def mixinKeyEncTab : List Nat :=
  [46, 47, 18, 2, 53, 8, 23, 32, 15, 50, 10, 31, 58, 3, 45, 35, 27, 43, 5, 49,
   33, 9, 42, 19, 29, 28, 14, 39, 12, 38, 41, 13, 37, 48, 7, 16, 24, 55, 40,
   61, 26, 17, 0, 1, 60, 51, 30, 4, 22, 25, 54, 21, 56, 59, 6, 63, 57, 62, 11,
   36, 20, 34, 44, 52]

/-- Model of `getMixinKey`: a fold over the table appending `orig[i]`, truncated to
32 characters.  Indexing is modelled with `getD`; every theorem about it
assumes the table indices are in range (`64 ≤ orig.length`), where the
model agrees with the Python indexing `orig[i]`. -/
def getMixinKey (orig : String) : String :=
  ⟨(mixinKeyEncTab.foldl (fun s i => s ++ [orig.data.getD i ' ']) []).take 32⟩

/-- The characters `encWbi` filters out of every value: the exclamation
mark, the apostrophe (written by code point), the two parentheses and
the asterisk. -/
def wbiBadChars : List Char := ['!', Char.ofNat 39, '(', ')', '*']

/-- The value filter of `encWbi`: remove every occurrence of a character
of `wbiBadChars`. -/
def stripWbi (v : String) : String :=
  ⟨v.data.filter (fun c => !(wbiBadChars.contains c))⟩

/-- Model of `encWbi`: insert the current timestamp as `wts`, sort items by key,
strip the `wbiBadChars` from every value, URL-encode, append the mixin key derived
from `img_key ++ sub_key`, MD5-hash to get `w_rid`, and attach it.  The
timestamp `round(time.time())` is an explicit argument. -/
def encWbi (params : Params) (img_key sub_key : String) (currTime : Nat) : Params :=
  let mixin_key := getMixinKey (img_key ++ sub_key)
  let p1 := dictUpdate params "wts" (toString currTime)
  let p2 := sortByKey p1
  let p3 := p2.map (fun kv => (kv.1, stripWbi kv.2))
  let query := urlencode p3
  let wbi_sign := md5hex (query ++ mixin_key)
  dictUpdate p3 "w_rid" wbi_sign

/-! ### `BaseApi._check_response` -/

/-- The JSON response envelope, as far as `_check_response` reads it:
the numeric `code` and the optional `message` / `msg` fields
(`none` models an absent key, for which `dict.get` returns `None`). -/
structure JsonResponse where
  code : Int
  message : Option String := none
  msg : Option String := none
deriving DecidableEq

/-- The typed application error `ApiRequestError(code, message)`. -/
structure ApiRequestError where
  code : Int
  message : String
deriving DecidableEq

/-- The Python expression `a or b` for an optional string `a`: `None` and the empty
string are falsy. -/
def pyOrStr (a : Option String) (b : String) : String :=
  match a with
  | none => b
  | some s => if s = "" then b else s

/-- Model of `BaseApi._check_response`: raise `ApiRequestError` with the
code and message of the response when `code != 0`, else return normally. -/
def checkResponse (j : JsonResponse) : Except ApiRequestError Unit :=
  if j.code ≠ 0 then
    .error ⟨j.code, pyOrStr j.message (pyOrStr j.msg "")⟩
  else
    .ok ()

/-! ### Multi-host fetch (`_get_json`, `_get_jsons_concurrently`)

The asynchronous helpers are modelled as pure functions of a `fetch`
map from URL to per-request outcome.  Both return the result together
with the list of URLs actually requested, so that "does not contact
later hosts" and "raises before attempting any request" are statable. -/

/-- How a `_get_json` run can fail: the `ValueError` guard on an empty
host list, a re-raised per-host exception, or the (unreachable) failure
of the `assert exception is not None`. -/
inductive SeqErr (ε : Type) where
  | valueError
  | assertFailed
  | raised (e : ε)
deriving DecidableEq

/-- Loop `for base_url in base_urls` of `_get_json`: try each URL in
order, return the first success, remember the last exception, and
re-raise it after the loop. -/
def seqFetchLoop (urls : List String) (fetch : String → Except ε ρ)
    (exc : Option ε) : Except (SeqErr ε) ρ × List String :=
  match urls with
  | [] =>
    match exc with
    | some e => (.error (.raised e), [])
    | none => (.error .assertFailed, [])
  | u :: rest =>
    match fetch u with
    | .ok r => (.ok r, [u])
    | .error e =>
      let next := seqFetchLoop rest fetch (some e)
      (next.1, u :: next.2)

/-- Model of `BaseApi._get_json`: raise `ValueError` on an empty host list, else
run the sequential loop over `base_url + path`. -/
def getJson (baseUrls : List String) (path : String)
    (fetch : String → Except ε ρ) : Except (SeqErr ε) ρ × List String :=
  if baseUrls = [] then (.error .valueError, [])
  else seqFetchLoop (baseUrls.map (fun b => b ++ path)) fetch none

/-- A settled item of `asyncio.gather(..., return_exceptions=True)`: an
exception, a dict (a JSON object response), or any other value. -/
inductive GatherItem (ε δ ω : Type) where
  | exc (e : ε)
  | json (d : δ)
  | other (v : ω)
deriving DecidableEq

/-- How `_get_jsons_concurrently` can fail: the `ValueError` guard, the
`IndexError` from `exceptions[0]` on an empty list, or a re-raised
collected exception. -/
inductive ConcErr (ε : Type) where
  | valueError
  | indexError
  | raised (e : ε)
deriving DecidableEq

/-- The classification loop of `_get_jsons_concurrently`: exceptions are
collected, dicts are collected as responses, anything else is only
logged. -/
def partitionResults : List (GatherItem ε δ ω) → List ε × List δ
  | [] => ([], [])
  | item :: rest =>
    let next := partitionResults rest
    match item with
    | .exc e => (e :: next.1, next.2)
    | .json d => (next.1, d :: next.2)
    | .other _ => next

/-- Model of `BaseApi._get_jsons_concurrently`: raise `ValueError` on an empty
host list; otherwise request every `base_url + path`, classify the
settled results, raise `exceptions[0]` when no dict response was
collected (an `IndexError` when `exceptions` is also empty), and return
the collected responses otherwise. -/
def getJsonsConcurrently (baseUrls : List String) (path : String)
    (fetch : String → GatherItem ε δ ω) :
    Except (ConcErr ε) (List δ) × List String :=
  if baseUrls = [] then (.error .valueError, [])
  else
    let urls := baseUrls.map (fun b => b ++ path)
    let results := urls.map fetch
    let parts := partitionResults results
    match parts.2, parts.1 with
    | [], [] => (.error .indexError, urls)
    | [], e :: _ => (.error (.raised e), urls)
    | d :: ds, _ => (.ok (d :: ds), urls)

/-! ### Spec-side projections and concrete fetch maps used by witnesses -/

/-- The exception carried by a settled item, if any. -/
def excOf : GatherItem ε δ ω → Option ε
  | .exc e => some e
  | _ => none

/-- The dict response carried by a settled item, if any. -/
def jsonOf : GatherItem ε δ ω → Option δ
  | .json d => some d
  | _ => none

/-- A concrete sequential-fetch environment: host `B` succeeds, every
other host raises. -/
def seqFetchEx : String → Except Nat Nat :=
  fun u => if u = "B/p" then .ok 42 else .error 7

/-- A concrete sequential-fetch environment where every host raises. -/
def seqFetchFailEx : String → Except Nat Nat :=
  fun _ => .error 9

/-- A concrete concurrent-fetch environment: hosts `B` and `C` settle
with dicts, every other host settles with an exception. -/
def concFetchEx : String → GatherItem Nat Nat Empty :=
  fun u => if u = "B/p" then .json 1 else if u = "C/p" then .json 2 else .exc 7

/-- A concrete concurrent-fetch environment where every host settles
with an exception. -/
def concFetchFailEx : String → GatherItem Nat Nat Empty :=
  fun _ => .exc 5

/-- A concrete concurrent-fetch environment where every host settles
with a non-dict, non-exception value. -/
def concFetchOtherEx : String → GatherItem Nat Nat Nat :=
  fun _ => .other 0

/-- A concrete JSON dict used by witnesses. -/
def paramsEx : Params := [("room_id", "123"), ("ts", "1700000000")]

/-- A concrete 32-character `img_key` used by witnesses. -/
def imgKeyEx : String := "7cd084941338484aae1ad9425b84077c"

/-- A concrete 32-character `sub_key` used by witnesses. -/
def subKeyEx : String := "4932caff0ff746eab6f01bf08b70ac45"

/-! ## Helper lemmas -/

theorem keys_append (d e : Params) : keys (d ++ e) = keys d ++ keys e :=
  List.map_append _ d e

theorem strLength_eq_data (s : String) : s.length = s.data.length := rfl

theorem dictUpdate_of_not_mem (d : Params) (k v : String) (h : k ∉ keys d) :
    dictUpdate d k v = d ++ [(k, v)] := by
  have hany : d.any (fun kv => kv.1 == k) = false := by
    rw [List.any_eq_false]
    intro kv hkv hbeq
    have hk : kv.1 = k := by simpa using hbeq
    exact h (hk ▸ List.mem_map_of_mem Prod.fst hkv)
  simp [dictUpdate, hany]

theorem sortByKey_perm (d : Params) : List.Perm (sortByKey d) d :=
  List.perm_insertionSort _ d

theorem keys_sortByKey_perm (d : Params) : List.Perm (keys (sortByKey d)) (keys d) :=
  (sortByKey_perm d).map Prod.fst

theorem keyLt_nil_right (l : List Char) : keyLt l [] = false := by
  cases l <;> rfl

theorem keyLt_asymm (l1 l2 : List Char) (h : keyLt l1 l2 = true) :
    keyLt l2 l1 = false := by
  induction l1 generalizing l2 with
  | nil =>
    cases l2 with
    | nil => simp [keyLt] at h
    | cons b s => rfl
  | cons a t ih =>
    cases l2 with
    | nil => simp [keyLt] at h
    | cons b s =>
      simp only [keyLt] at h ⊢
      by_cases h1 : a.toNat < b.toNat
      · have h2 : ¬b.toNat < a.toNat := by omega
        simp [h1, h2]
      · by_cases h2 : b.toNat < a.toNat
        · simp [h1, h2] at h
        · simp only [if_neg h1, if_neg h2] at h ⊢
          exact ih s h

theorem keyLt_trans (l1 l2 l3 : List Char) (h1 : keyLt l1 l2 = true)
    (h2 : keyLt l2 l3 = true) : keyLt l1 l3 = true := by
  induction l1 generalizing l2 l3 with
  | nil =>
    cases l3 with
    | nil => rw [keyLt_nil_right] at h2; exact absurd h2 (by simp)
    | cons c u => rfl
  | cons a t ih =>
    cases l2 with
    | nil => rw [keyLt_nil_right] at h1; exact absurd h1 (by simp)
    | cons b s =>
      cases l3 with
      | nil => rw [keyLt_nil_right] at h2; exact absurd h2 (by simp)
      | cons c u =>
        simp only [keyLt] at h1 h2 ⊢
        by_cases hab : a.toNat < b.toNat
        · by_cases hbc : b.toNat < c.toNat
          · have hac : a.toNat < c.toNat := by omega
            simp [hac]
          · by_cases hcb : c.toNat < b.toNat
            · simp [hab, hbc, hcb] at h2
            · have hac : a.toNat < c.toNat := by omega
              simp [hac]
        · by_cases hba : b.toNat < a.toNat
          · simp [hab, hba] at h1
          · by_cases hbc : b.toNat < c.toNat
            · have hac : a.toNat < c.toNat := by omega
              simp [hac]
            · by_cases hcb : c.toNat < b.toNat
              · simp [hbc, hcb] at h2
              · have hac1 : ¬a.toNat < c.toNat := by omega
                have hac2 : ¬c.toNat < a.toNat := by omega
                simp only [if_neg hab, if_neg hba] at h1
                simp only [if_neg hbc, if_neg hcb] at h2
                simp only [if_neg hac1, if_neg hac2]
                exact ih s u h1 h2

theorem keyLt_eq_of_not (l1 l2 : List Char) (h1 : keyLt l1 l2 = false)
    (h2 : keyLt l2 l1 = false) : l1 = l2 := by
  induction l1 generalizing l2 with
  | nil =>
    cases l2 with
    | nil => rfl
    | cons b s => simp [keyLt] at h1
  | cons a t ih =>
    cases l2 with
    | nil => simp [keyLt] at h2
    | cons b s =>
      simp only [keyLt] at h1 h2
      by_cases hab : a.toNat < b.toNat
      · simp [hab] at h1
      · by_cases hba : b.toNat < a.toNat
        · simp [hba] at h2
        · simp only [if_neg hab, if_neg hba] at h1 h2
          have hchar : a = b := by
            have hnat : a.toNat = b.toNat := by omega
            exact Char.eq_of_val_eq (UInt32.ext hnat)
          rw [hchar, ih s h1 h2]

theorem keyLe_total (a b : String) : keyLe a b = true ∨ keyLe b a = true := by
  cases hab : keyLt b.data a.data with
  | false => exact Or.inl (by simp [keyLe, hab])
  | true => exact Or.inr (by simp [keyLe, keyLt_asymm _ _ hab])

theorem keyLe_trans (a b c : String) (h1 : keyLe a b = true)
    (h2 : keyLe b c = true) : keyLe a c = true := by
  simp only [keyLe, Bool.not_eq_true', Bool.not_eq_false] at h1 h2 ⊢
  cases hca : keyLt c.data a.data with
  | false => rfl
  | true =>
    exfalso
    cases hbc : keyLt b.data c.data with
    | false =>
      have hcb : c.data = b.data := keyLt_eq_of_not _ _ h2 hbc
      rw [hcb] at hca
      rw [hca] at h1
      exact absurd h1 (by simp)
    | true =>
      have := keyLt_trans _ _ _ hbc hca
      rw [this] at h1
      exact absurd h1 (by simp)

theorem keys_sortByKey_sorted (d : Params) :
    (keys (sortByKey d)).Sorted (fun a b : String => keyLe a b = true) := by
  haveI : IsTotal (String × String) (fun a b => keyLe a.1 b.1 = true) :=
    ⟨fun a b => keyLe_total a.1 b.1⟩
  haveI : IsTrans (String × String) (fun a b => keyLe a.1 b.1 = true) :=
    ⟨fun a b c => keyLe_trans a.1 b.1 c.1⟩
  have h := List.sorted_insertionSort
    (fun a b : String × String => keyLe a.1 b.1 = true) d
  exact List.Pairwise.map Prod.fst (fun a b hab => hab) h

theorem lookup_append_of_not_mem (l : Params) (k v : String) (h : k ∉ keys l) :
    List.lookup k (l ++ [(k, v)]) = some v := by
  induction l with
  | nil => simp [List.lookup]
  | cons a t ih =>
    obtain ⟨a1, a2⟩ := a
    have hka : k ≠ a1 := by
      intro hk
      exact h (by simp [keys, hk])
    have hne : (k == a1) = false := beq_eq_false_iff_ne.2 hka
    simp only [List.cons_append, List.lookup, hne]
    exact ih (fun hm => h (by simp [keys] at hm ⊢; exact Or.inr hm))

theorem lookup_of_nodup (l : Params) (k v : String)
    (hnd : (keys l).Nodup) (hm : (k, v) ∈ l) : List.lookup k l = some v := by
  induction l with
  | nil => cases hm
  | cons a t ih =>
    obtain ⟨a1, a2⟩ := a
    have hnd' : a1 ∉ keys t ∧ (keys t).Nodup := by
      simpa [keys] using hnd
    rcases List.mem_cons.1 hm with heq | hmt
    · obtain ⟨h1, h2⟩ := Prod.mk.injEq k v a1 a2 ▸ heq
      subst h1; subst h2
      simp [List.lookup]
    · have hka : k ≠ a1 := by
        intro hk
        subst hk
        exact hnd'.1 (List.mem_map_of_mem Prod.fst hmt)
      have hne : (k == a1) = false := beq_eq_false_iff_ne.2 hka
      simp only [List.lookup, hne]
      exact ih hnd'.2 hmt

theorem foldl_append_map {α β : Type} (f : α → β) :
    ∀ (l : List α) (acc : List β),
      l.foldl (fun s i => s ++ [f i]) acc = acc ++ l.map f := by
  intro l
  induction l with
  | nil => intro acc; simp
  | cons a t ih => intro acc; simp [List.foldl_cons, ih]

theorem partitionResults_eq (l : List (GatherItem ε δ ω)) :
    partitionResults l = (l.filterMap excOf, l.filterMap jsonOf) := by
  induction l with
  | nil => rfl
  | cons a t ih =>
    cases a <;> simp [partitionResults, List.filterMap_cons, excOf, jsonOf, ih]

theorem keys_map_strip (l : Params) :
    keys (l.map (fun kv => (kv.1, stripWbi kv.2))) = keys l := by
  simp only [keys, List.map_map]
  rfl

theorem not_mem_keys_strip_sort (params : Params) (k kw v : String)
    (hk : k ∉ keys params) (hne : k ≠ kw) :
    k ∉ keys ((sortByKey (params ++ [(kw, v)])).map
        (fun kv => (kv.1, stripWbi kv.2))) := by
  intro hmem
  rw [keys_map_strip] at hmem
  have hm := (keys_sortByKey_perm _).mem_iff.1 hmem
  rw [keys_append] at hm
  rcases List.mem_append.1 hm with h | h
  · exact hk h
  · simp [keys] at h
    exact hne h

theorem getMixinKey_data (orig : String) :
    (getMixinKey orig).data
      = (mixinKeyEncTab.map (fun i => orig.data.getD i ' ')).take 32 := by
  rw [getMixinKey]
  rw [foldl_append_map (fun i => orig.data.getD i ' ') mixinKeyEncTab []]
  rfl

theorem encWbi_unfold (params : Params) (img_key sub_key : String) (t : Nat)
    (hwts : "wts" ∉ keys params) (hwrid : "w_rid" ∉ keys params) :
    encWbi params img_key sub_key t
      = (sortByKey (params ++ [("wts", toString t)])).map
          (fun kv => (kv.1, stripWbi kv.2))
        ++ [("w_rid",
            md5hex (urlencode ((sortByKey (params ++ [("wts", toString t)])).map
                (fun kv => (kv.1, stripWbi kv.2)))
              ++ getMixinKey (img_key ++ sub_key)))] := by
  have h1 : dictUpdate params "wts" (toString t)
      = params ++ [("wts", toString t)] :=
    dictUpdate_of_not_mem _ _ _ hwts
  have hk3 := not_mem_keys_strip_sort params "w_rid" "wts" (toString t) hwrid
    (by decide)
  show dictUpdate ((sortByKey (dictUpdate params "wts" (toString t))).map
      (fun kv => (kv.1, stripWbi kv.2))) "w_rid"
      (md5hex (urlencode ((sortByKey (dictUpdate params "wts" (toString t))).map
          (fun kv => (kv.1, stripWbi kv.2)))
        ++ getMixinKey (img_key ++ sub_key))) = _
  rw [h1]
  exact dictUpdate_of_not_mem _ _ _ hk3

/-! ## Claim theorems -/

/-- C1: `AppApi.signed` returns the parameters with the fixed public app
key inserted under `appkey` and the items sorted lexicographically by
key, followed by a `sign` field holding the MD5 hex digest of the
URL-encoded sorted mapping concatenated with the fixed secret. -/
theorem signed_spec (params : Params)
    (hak : "appkey" ∉ keys params) (hsg : "sign" ∉ keys params) :
    AppApi.signed params
      = sortByKey (params ++ [("appkey", AppApi.appkey)])
        ++ [("sign",
            md5hex (urlencode (sortByKey (params ++ [("appkey", AppApi.appkey)]))
              ++ AppApi.appsec))]
    ∧ (keys (sortByKey (params ++ [("appkey", AppApi.appkey)]))).Sorted
        (fun a b : String => keyLe a b = true)
    ∧ List.Perm (sortByKey (params ++ [("appkey", AppApi.appkey)]))
        (params ++ [("appkey", AppApi.appkey)]) := by
  have h1 : dictUpdate params "appkey" AppApi.appkey
      = params ++ [("appkey", AppApi.appkey)] :=
    dictUpdate_of_not_mem _ _ _ hak
  have hsk : "sign" ∉ keys (sortByKey (params ++ [("appkey", AppApi.appkey)])) := by
    intro hmem
    have hperm := keys_sortByKey_perm (params ++ [("appkey", AppApi.appkey)])
    have hm : "sign" ∈ keys (params ++ [("appkey", AppApi.appkey)]) :=
      hperm.mem_iff.1 hmem
    rw [keys_append] at hm
    rcases List.mem_append.1 hm with h | h
    · exact hsg h
    · simp [keys] at h
  refine ⟨?_, keys_sortByKey_sorted _, sortByKey_perm _⟩
  show dictUpdate (sortByKey (dictUpdate params "appkey" AppApi.appkey)) "sign"
      (md5hex (urlencode (sortByKey (dictUpdate params "appkey" AppApi.appkey))
        ++ AppApi.appsec)) = _
  rw [h1]
  exact dictUpdate_of_not_mem _ _ _ hsk

/-- Witness for C1 at a concrete parameter mapping. -/
theorem signed_spec_witness :
    ("appkey" ∉ keys paramsEx ∧ "sign" ∉ keys paramsEx)
    ∧ (AppApi.signed paramsEx
        = sortByKey (paramsEx ++ [("appkey", AppApi.appkey)])
          ++ [("sign",
              md5hex (urlencode (sortByKey (paramsEx ++ [("appkey", AppApi.appkey)]))
                ++ AppApi.appsec))]
      ∧ (keys (sortByKey (paramsEx ++ [("appkey", AppApi.appkey)]))).Sorted
          (fun a b : String => keyLe a b = true)
      ∧ List.Perm (sortByKey (paramsEx ++ [("appkey", AppApi.appkey)]))
          (paramsEx ++ [("appkey", AppApi.appkey)])) :=
  ⟨⟨by decide, by decide⟩, signed_spec paramsEx (by decide) (by decide)⟩

/-- C8: `AppApi.signed` is a deterministic function of the parameter
mapping alone (its only input is the mapping: no clock is read and no
external key is fetched), so two runs on equal inputs give byte-for-byte
equal outputs, including the `sign` field. -/
theorem signed_deterministic (p q : Params) (h : p = q) :
    AppApi.signed p = AppApi.signed q
    ∧ List.lookup "sign" (AppApi.signed p)
      = List.lookup "sign" (AppApi.signed q) := by
  subst h
  exact ⟨rfl, rfl⟩

/-- Witness for C8 at a concrete parameter mapping. -/
theorem signed_deterministic_witness :
    AppApi.signed paramsEx = AppApi.signed paramsEx
    ∧ List.lookup "sign" (AppApi.signed paramsEx)
      = List.lookup "sign" (AppApi.signed paramsEx) :=
  signed_deterministic paramsEx paramsEx rfl

/-- C6: a response with nonzero `code` makes `_check_response` raise an
`ApiRequestError` carrying exactly that code and the message taken from
`message`, else `msg`, else the empty string (Python truthiness: a
`None` and an empty string both fall through); such a response is never
answered normally, and a response with `code = 0` raises nothing. -/
theorem checkResponse_spec (j : JsonResponse) :
    (j.code ≠ 0 →
      checkResponse j = .error ⟨j.code, pyOrStr j.message (pyOrStr j.msg "")⟩
        ∧ checkResponse j ≠ .ok ())
    ∧ (j.code = 0 → checkResponse j = .ok ()) := by
  constructor
  · intro h
    constructor
    · simp [checkResponse, h]
    · simp [checkResponse, h]
  · intro h
    simp [checkResponse, h]

/-- C2: the `w_rid` signature produced by `encWbi` is the MD5 hex digest
of the URL-encoding of the parameters (with `wts` inserted, items sorted
by key, and the `wbiBadChars` removed from every value) concatenated
with the mixing key; `encWbi` is a function of its three inputs and the
explicit timestamp, so for fixed inputs the result is reproducible. -/
theorem encWbi_w_rid (params : Params) (img_key sub_key : String) (t : Nat)
    (hlen : 64 ≤ (img_key ++ sub_key).length)
    (hwts : "wts" ∉ keys params) (hwrid : "w_rid" ∉ keys params) :
    List.lookup "w_rid" (encWbi params img_key sub_key t)
      = some (md5hex (urlencode ((sortByKey (params ++ [("wts", toString t)])).map
            (fun kv => (kv.1, stripWbi kv.2)))
          ++ getMixinKey (img_key ++ sub_key)))
    ∧ ∀ p i s u, p = params → i = img_key → s = sub_key → u = t →
        encWbi p i s u = encWbi params img_key sub_key t := by
  refine ⟨?_, ?_⟩
  · rw [encWbi_unfold params img_key sub_key t hwts hwrid]
    exact lookup_append_of_not_mem _ _ _
      (not_mem_keys_strip_sort params "w_rid" "wts" (toString t) hwrid (by decide))
  · intro p i s u hp hi hs hu
    rw [hp, hi, hs, hu]

/-- Witness for C2 at a concrete mapping, key pair and timestamp. -/
theorem encWbi_w_rid_witness :
    List.lookup "w_rid" (encWbi [("id", "123"), ("type", "0")] imgKeyEx subKeyEx 1700000000)
      = some (md5hex (urlencode ((sortByKey ([("id", "123"), ("type", "0")]
            ++ [("wts", toString 1700000000)])).map
            (fun kv => (kv.1, stripWbi kv.2)))
          ++ getMixinKey (imgKeyEx ++ subKeyEx))) :=
  (encWbi_w_rid [("id", "123"), ("type", "0")] imgKeyEx subKeyEx 1700000000
    (by decide) (by decide) (by decide)).1

/-- C3: the permutation table has 64 entries, and for a concatenated key
of length at least 64 the mixing key has exactly 32 characters, its
character at each position `j < 32` being the character of the
concatenation at the fixed position given by the table. -/
theorem getMixinKey_spec (img_key sub_key : String)
    (h : 64 ≤ (img_key ++ sub_key).length) :
    mixinKeyEncTab.length = 64
    ∧ (getMixinKey (img_key ++ sub_key)).length = 32
    ∧ ∀ j, j < 32 →
        (getMixinKey (img_key ++ sub_key)).data[j]?
          = (img_key ++ sub_key).data[mixinKeyEncTab.getD j 0]? := by
  have ht64 : mixinKeyEncTab.length = 64 := rfl
  have hdlen : (img_key ++ sub_key).data.length = (img_key ++ sub_key).length :=
    (strLength_eq_data _).symm
  have hdata := getMixinKey_data (img_key ++ sub_key)
  refine ⟨ht64, ?_, ?_⟩
  · rw [strLength_eq_data, hdata, List.length_take, List.length_map, ht64]
    omega
  · intro j hj
    have hjt : j < mixinKeyEncTab.length := by omega
    have hall : ∀ i ∈ mixinKeyEncTab, i < 64 := by decide
    have hgd : mixinKeyEncTab.getD j 0 = mixinKeyEncTab[j] :=
      List.getD_eq_getElem _ _ hjt
    have hidx : mixinKeyEncTab[j] < 64 := hall _ (mixinKeyEncTab.getElem_mem hjt)
    have hidx2 : mixinKeyEncTab[j] < (img_key ++ sub_key).data.length := by omega
    rw [hdata, hgd, List.getElem?_take, if_pos hj, List.getElem?_map,
      List.getElem?_eq_getElem hjt, List.getElem?_eq_getElem hidx2]
    simp only [Option.map_some']
    rw [List.getD_eq_getElem _ _ hidx2]

/-- Witness for C3 at a concrete key pair. -/
theorem getMixinKey_spec_witness :
    64 ≤ (imgKeyEx ++ subKeyEx).length
    ∧ (getMixinKey (imgKeyEx ++ subKeyEx)).length = 32
    ∧ (getMixinKey (imgKeyEx ++ subKeyEx)).data[0]?
      = (imgKeyEx ++ subKeyEx).data[mixinKeyEncTab.getD 0 0]? :=
  ⟨by decide, (getMixinKey_spec imgKeyEx subKeyEx (by decide)).2.1,
    (getMixinKey_spec imgKeyEx subKeyEx (by decide)).2.2 0 (by decide)⟩

/-- C7 counterexample: `encWbi` does not keep original values unchanged.
At the concrete mapping whose single value is an exclamation mark, the
output value under the original key is the empty string. -/
theorem encWbi_values_counterexample :
    List.lookup "a" (encWbi [("a", "!")] imgKeyEx subKeyEx 1700000000) = some ""
    ∧ some ("" : String) ≠ some "!" := by
  constructor
  · decide
  · decide

/-- C7 amended: the output key set of `encWbi` is exactly the original
keys plus `wts` and `w_rid`, and every original parameter keeps its
value up to removal of the `wbiBadChars`; `wts` holds the (filtered)
decimal timestamp and `w_rid` holds the signature. -/
theorem encWbi_frame (params : Params) (img_key sub_key : String) (t : Nat)
    (hlen : 64 ≤ (img_key ++ sub_key).length)
    (hnd : (keys params).Nodup)
    (hwts : "wts" ∉ keys params) (hwrid : "w_rid" ∉ keys params) :
    (∀ k, k ∈ keys (encWbi params img_key sub_key t)
        ↔ (k ∈ keys params ∨ k = "wts" ∨ k = "w_rid"))
    ∧ (∀ k v, (k, v) ∈ params →
        List.lookup k (encWbi params img_key sub_key t) = some (stripWbi v))
    ∧ List.lookup "wts" (encWbi params img_key sub_key t)
      = some (stripWbi (toString t))
    ∧ ∃ w, List.lookup "w_rid" (encWbi params img_key sub_key t) = some w := by
  have hu := encWbi_unfold params img_key sub_key t hwts hwrid
  have hiff : ∀ k, k ∈ keys (sortByKey (params ++ [("wts", toString t)]))
      ↔ (k ∈ keys params ∨ k = "wts") := by
    intro k
    rw [(keys_sortByKey_perm _).mem_iff, keys_append]
    simp [keys]
  have hndout : (keys (encWbi params img_key sub_key t)).Nodup := by
    rw [hu, keys_append, keys_map_strip]
    have hnd1 : (keys (params ++ [("wts", toString t)])).Nodup := by
      rw [keys_append]
      refine List.Nodup.append hnd (by simp [keys]) ?_
      intro a ha hb
      simp [keys] at hb
      exact hwts (hb ▸ ha)
    have hnd2 : (keys (sortByKey (params ++ [("wts", toString t)]))).Nodup :=
      ((keys_sortByKey_perm _).nodup_iff).2 hnd1
    refine List.Nodup.append hnd2 (by simp [keys]) ?_
    intro a ha hb
    simp [keys] at hb
    subst hb
    rcases (hiff _).1 ha with h | h
    · exact hwrid h
    · exact absurd h (by decide)
  refine ⟨?_, ?_, ?_, ?_⟩
  · intro k
    rw [hu, keys_append, keys_map_strip, List.mem_append]
    rw [hiff k]
    simp [keys, or_assoc]
  · intro k v hm
    have hmem : (k, stripWbi v) ∈ encWbi params img_key sub_key t := by
      rw [hu]
      refine List.mem_append_left _ ?_
      exact List.mem_map.2 ⟨(k, v),
        (sortByKey_perm _).mem_iff.2 (List.mem_append_left _ hm), rfl⟩
    exact lookup_of_nodup _ _ _ hndout hmem
  · have hmem : ("wts", stripWbi (toString t)) ∈ encWbi params img_key sub_key t := by
      rw [hu]
      refine List.mem_append_left _ ?_
      exact List.mem_map.2 ⟨("wts", toString t),
        (sortByKey_perm _).mem_iff.2 (List.mem_append_right _ (by simp)), rfl⟩
    exact lookup_of_nodup _ _ _ hndout hmem
  · rw [hu]
    exact ⟨_, lookup_append_of_not_mem _ _ _
      (not_mem_keys_strip_sort params "w_rid" "wts" (toString t) hwrid (by decide))⟩

/-- Witness for the amended C7 at a concrete mapping. -/
theorem encWbi_frame_witness :
    ("a" ∈ keys (encWbi [("a", "b!c")] imgKeyEx subKeyEx 1700000000))
    ∧ List.lookup "a" (encWbi [("a", "b!c")] imgKeyEx subKeyEx 1700000000)
      = some (stripWbi "b!c")
    ∧ List.lookup "wts" (encWbi [("a", "b!c")] imgKeyEx subKeyEx 1700000000)
      = some (stripWbi (toString 1700000000))
    ∧ ∃ w, List.lookup "w_rid" (encWbi [("a", "b!c")] imgKeyEx subKeyEx 1700000000)
        = some w :=
  have h := encWbi_frame [("a", "b!c")] imgKeyEx subKeyEx 1700000000
    (by decide) (by decide) (by decide) (by decide)
  ⟨(h.1 "a").2 (Or.inl (by decide)), h.2.1 "a" "b!c" (by decide), h.2.2.1, h.2.2.2⟩

/-- Witness for C6 at concrete responses. -/
theorem checkResponse_spec_witness :
    (checkResponse ⟨-352, some "m", none⟩
        = .error ⟨-352, pyOrStr (some "m") (pyOrStr none "")⟩
      ∧ checkResponse ⟨-352, some "m", none⟩ ≠ .ok ())
    ∧ checkResponse ⟨0, none, some "x"⟩ = .ok () :=
  ⟨(checkResponse_spec ⟨-352, some "m", none⟩).1 (by decide),
   (checkResponse_spec ⟨0, none, some "x"⟩).2 rfl⟩


theorem seqFetchLoop_ok (fetch : String → Except ε ρ) (w : String) (r : ρ)
    (hw : fetch w = .ok r) :
    ∀ (pre : List String), (∀ v ∈ pre, ∃ e, fetch v = .error e) →
      ∀ (post : List String) (exc : Option ε),
        seqFetchLoop (pre ++ w :: post) fetch exc = (.ok r, pre ++ [w]) := by
  intro pre
  induction pre with
  | nil =>
    intro hall post exc
    simp [seqFetchLoop, hw]
  | cons v vs ih =>
    intro hall post exc
    obtain ⟨e, he⟩ := hall v (by simp)
    have ih2 := ih (fun x hx => hall x (by simp [hx])) post (some e)
    simp [seqFetchLoop, he, ih2]

theorem seqFetchLoop_fail (fetch : String → Except ε ρ) (w : String) (e : ε)
    (hw : fetch w = .error e) :
    ∀ (pre : List String), (∀ v ∈ pre, ∃ e2, fetch v = .error e2) →
      ∀ (exc : Option ε),
        seqFetchLoop (pre ++ [w]) fetch exc = (.error (.raised e), pre ++ [w]) := by
  intro pre
  induction pre with
  | nil =>
    intro hall exc
    simp [seqFetchLoop, hw]
  | cons v vs ih =>
    intro hall exc
    obtain ⟨e2, he2⟩ := hall v (by simp)
    have ih2 := ih (fun x hx => hall x (by simp [hx])) (some e2)
    simp [seqFetchLoop, he2, ih2]

/-- C4: the sequential multi-host fetch tries the hosts in order; it
returns the response of the first host that succeeds, having requested
exactly the failing prefix and that host (later hosts are not
contacted), and when every host fails it re-raises the error of the
last host. -/
theorem getJson_fallback (path : String) (fetch : String → Except ε ρ) :
    (∀ (pre : List String) (u : String) (post : List String) (r : ρ),
        (∀ v ∈ pre, ∃ e, fetch (v ++ path) = .error e) →
        fetch (u ++ path) = .ok r →
        getJson (pre ++ u :: post) path fetch
          = (.ok r, pre.map (fun b => b ++ path) ++ [u ++ path]))
    ∧ (∀ (pre : List String) (u : String) (e : ε),
        (∀ v ∈ pre, ∃ e2, fetch (v ++ path) = .error e2) →
        fetch (u ++ path) = .error e →
        getJson (pre ++ [u]) path fetch
          = (.error (.raised e), pre.map (fun b => b ++ path) ++ [u ++ path])) := by
  constructor
  · intro pre u post r hall hu
    have hne : ¬(pre ++ u :: post = []) := by simp
    rw [getJson, if_neg hne, List.map_append, List.map_cons]
    exact seqFetchLoop_ok fetch (u ++ path) r hu (pre.map (fun b => b ++ path))
      (by
        intro v hv
        obtain ⟨b, hb, rfl⟩ := List.mem_map.1 hv
        exact hall b hb)
      (post.map (fun b => b ++ path)) none
  · intro pre u e hall hu
    have hne : ¬(pre ++ [u] = []) := by simp
    rw [getJson, if_neg hne, List.map_append, List.map_cons, List.map_nil]
    exact seqFetchLoop_fail fetch (u ++ path) e hu (pre.map (fun b => b ++ path))
      (by
        intro v hv
        obtain ⟨b, hb, rfl⟩ := List.mem_map.1 hv
        exact hall b hb)
      none

/-- Witness for C4: host lists where the second host succeeds and where
every host fails. -/
theorem getJson_fallback_witness :
    getJson ["A", "B", "C"] "/p" seqFetchEx = (.ok 42, ["A/p", "B/p"])
    ∧ getJson ["A", "B"] "/p" seqFetchFailEx = (.error (.raised 9), ["A/p", "B/p"]) := by
  constructor
  · have h := (getJson_fallback "/p" seqFetchEx).1 ["A"] "B" ["C"] 42
      (by
        intro v hv
        simp only [List.mem_singleton] at hv
        subst hv
        exact ⟨7, rfl⟩)
      rfl
    exact h
  · have h := (getJson_fallback "/p" seqFetchFailEx).2 ["A"] "B" 9
      (by
        intro v hv
        exact ⟨9, rfl⟩)
      rfl
    exact h

/-- C9: on an empty host list both fetch helpers raise `ValueError`
immediately, without attempting any request. -/
theorem fetch_emptyHosts (path : String) (fetch1 : String → Except ε ρ)
    (fetch2 : String → GatherItem ε2 δ ω) :
    getJson [] path fetch1 = (.error .valueError, [])
    ∧ getJsonsConcurrently [] path fetch2 = (.error .valueError, []) :=
  ⟨rfl, rfl⟩

/-- C5: when every settled per-host result is an exception or a dict,
the concurrent multi-host fetch returns the list of all dict responses
(in host order) without raising whenever at least one host succeeded,
and re-raises the first collected exception when no host succeeded. -/
theorem getJsonsConcurrently_spec (baseUrls : List String) (path : String)
    (fetch : String → GatherItem ε δ ω)
    (hne : baseUrls ≠ [])
    (hno : ∀ u ∈ baseUrls, ∀ w : ω, fetch (u ++ path) ≠ .other w) :
    (((baseUrls.map (fun b => b ++ path)).map fetch).filterMap jsonOf ≠ [] →
      getJsonsConcurrently baseUrls path fetch
        = (.ok (((baseUrls.map (fun b => b ++ path)).map fetch).filterMap jsonOf),
            baseUrls.map (fun b => b ++ path)))
    ∧ (((baseUrls.map (fun b => b ++ path)).map fetch).filterMap jsonOf = [] →
      ∃ e es,
        ((baseUrls.map (fun b => b ++ path)).map fetch).filterMap excOf = e :: es
        ∧ getJsonsConcurrently baseUrls path fetch
          = (.error (.raised e), baseUrls.map (fun b => b ++ path))) := by
  have hpart := partitionResults_eq ((baseUrls.map (fun b => b ++ path)).map fetch)
  constructor
  · intro hsucc
    obtain ⟨d, ds, hds⟩ : ∃ d ds,
        ((baseUrls.map (fun b => b ++ path)).map fetch).filterMap jsonOf = d :: ds := by
      cases hc : ((baseUrls.map (fun b => b ++ path)).map fetch).filterMap jsonOf with
      | nil => exact absurd hc hsucc
      | cons d ds => exact ⟨d, ds, rfl⟩
    simp only [getJsonsConcurrently, if_neg hne, hpart, hds]
  · intro hsucc
    obtain ⟨b, bs, rfl⟩ : ∃ b bs, baseUrls = b :: bs := by
      cases baseUrls with
      | nil => exact absurd rfl hne
      | cons b bs => exact ⟨b, bs, rfl⟩
    cases hfb : fetch (b ++ path) with
    | other w => exact absurd hfb (hno b (by simp) w)
    | json d =>
      exfalso
      rw [List.map_cons, List.map_cons, List.filterMap_cons, hfb] at hsucc
      simp [jsonOf] at hsucc
    | exc e =>
      refine ⟨e, ((bs.map (fun b => b ++ path)).map fetch).filterMap excOf, ?_, ?_⟩
      · rw [List.map_cons, List.map_cons, List.filterMap_cons, hfb]
        simp [excOf]
      · have hne2 : (b :: bs : List String) ≠ [] := by simp
        simp only [getJsonsConcurrently, if_neg hne2, hpart, hsucc]
        rw [List.map_cons, List.map_cons, List.filterMap_cons, hfb]
        simp [excOf]

/-- Witness for C5: three hosts where two succeed, and one host that
fails. -/
theorem getJsonsConcurrently_spec_witness :
    getJsonsConcurrently ["A", "B", "C"] "/p" concFetchEx
      = (.ok [1, 2], ["A/p", "B/p", "C/p"])
    ∧ ∃ e es,
        (((["A"] : List String).map (fun b => b ++ "/p")).map concFetchFailEx).filterMap excOf
          = e :: es
        ∧ getJsonsConcurrently ["A"] "/p" concFetchFailEx
          = (.error (.raised e), ["A"].map (fun b => b ++ "/p")) := by
  constructor
  · have h := (getJsonsConcurrently_spec ["A", "B", "C"] "/p" concFetchEx
      (by decide) (fun u hu w => by cases w)).1 (by decide)
    exact h
  · have h := (getJsonsConcurrently_spec ["A"] "/p" concFetchFailEx
      (by decide) (fun u hu w => by cases w)).2 (by decide)
    exact h

theorem partitionResults_all_other (path : String)
    (fetch : String → GatherItem ε δ ω) :
    ∀ (us : List String), (∀ u ∈ us, ∃ w, fetch (u ++ path) = .other w) →
      partitionResults ((us.map (fun b => b ++ path)).map fetch) = ([], []) := by
  intro us
  induction us with
  | nil => intro _; rfl
  | cons b bs ih =>
    intro hall
    obtain ⟨w, hw⟩ := hall b (by simp)
    have ih2 := ih (fun u hu => hall u (by simp [hu]))
    rw [List.map_map] at ih2
    simp [partitionResults, hw, ih2]

/-- C10: a settled per-host result that is neither an exception nor a
dict is discarded by the classification loop, counted neither as a
success nor as a failure; when every host settles with such a value,
the access of the first collected exception fails with an `IndexError`
instead of returning responses or re-raising a collected error. -/
theorem conc_other_discarded (baseUrls : List String) (path : String)
    (fetch : String → GatherItem ε δ ω)
    (hne : baseUrls ≠ [])
    (hall : ∀ u ∈ baseUrls, ∃ w, fetch (u ++ path) = .other w) :
    (∀ (l : List (GatherItem ε δ ω)) (w : ω),
        partitionResults (.other w :: l) = partitionResults l)
    ∧ getJsonsConcurrently baseUrls path fetch
        = (.error .indexError, baseUrls.map (fun b => b ++ path)) := by
  refine ⟨fun l w => rfl, ?_⟩
  have hres := partitionResults_all_other path fetch baseUrls hall
  simp only [getJsonsConcurrently, if_neg hne, hres]

/-- Witness for C10: a single host settling with a non-dict,
non-exception value. -/
theorem conc_other_discarded_witness :
    partitionResults [GatherItem.other (0 : Nat)]
      = partitionResults ([] : List (GatherItem Nat Nat Nat))
    ∧ getJsonsConcurrently ["A"] "/p" concFetchOtherEx
      = (.error .indexError, ["A"].map (fun b => b ++ "/p")) := by
  have h := conc_other_discarded ["A"] "/p" concFetchOtherEx (by decide)
    (fun u hu => ⟨0, rfl⟩)
  exact ⟨h.1 [] 0, h.2⟩

end Blrec

